import Mathlib

/-!
Verification of the TCP bridge in `blender_mcp_addon.py`.

We shallow-embed the connection-handling pipeline of the addon:
`_handle_command` (command registry dispatch, lines 45-102),
the per-frame timer handoff and the newline-delimited framing loop of
`_handle_client` (lines 654-691), `json.dumps`/`json.loads` as used by
that loop, and the start/stop operators (lines 723-750).

Modelling conventions:
* Bytes are modelled as `Char` lists (the loop splits on the one-byte
  delimiter `\n`; UTF-8 byte-level decoding is the identity on this model).
* Handler bodies call into Blender (`bpy`), i.e. external state; they are
  abstracted as an oracle `HandlerSem` giving, per command name and params,
  either a returned value or a raised exception (message and traceback).
  Values a handler may return include arbitrary Python objects that
  `json.dumps` rejects (e.g. `cmd_run_script` returns `exec_locals["result"]`
  unchanged whenever it is a `list`, so a script ending in `result = [bpy]`
  yields a list containing a module object); these are modelled by the
  `blob` constructor.
* The `bpy.app.timers.register` / `threading.Event` handoff is modelled by
  its observable outcome: if `_handle_command` raises before `done_event.set()`
  (possible only for non-dict payloads, whose `.get` raises `AttributeError`,
  or unhashable command values), or the 60 s wait elapses first (`late`),
  `result_holder[0]` is still `None` and the timeout response is used.
* Python float formatting and lone-surrogate `\u` escapes are abstracted
  (floats keep their parsed digit components; no claim depends on them).
-/

namespace BlenderMCP

/-- Python values flowing through the bridge: the JSON fragment produced by
`json.loads`, plus `blob` for Python objects that `json.dumps` rejects
(`TypeError: not JSON serializable`). Floats keep sign/integer/fraction/
exponent digit components as parsed. -/
inductive PyVal where
  | null : PyVal
  | bool (b : Bool) : PyVal
  | num (n : Int) : PyVal
  | flt (neg : Bool) (ip fp : List Nat) (eneg : Bool) (ep : List Nat) : PyVal
  | str (s : String) : PyVal
  | arr (elems : List PyVal) : PyVal
  | obj (fields : List (String × PyVal)) : PyVal
  | blob (tag : String) : PyVal

/-- Lower-case hexadecimal digit characters, as used by `json.dumps` for
`\uXXXX` escapes (and, for indices below ten, decimal digits). -/
def hexDigit (n : Nat) : Char :=
  "0123456789abcdef".toList.getD n '0'

/-- The four-hex-digit body of a `\uXXXX` escape. -/
def hexEsc (n : Nat) : List Char :=
  ['\\', 'u', hexDigit (n / 4096 % 16), hexDigit (n / 256 % 16),
   hexDigit (n / 16 % 16), hexDigit (n % 16)]

/-- `\u` escape for one code point; code points beyond the basic plane are
encoded as a surrogate pair, as CPython's `ensure_ascii` encoder does. -/
def uEscape (n : Nat) : List Char :=
  if n ≥ 0x10000 then
    hexEsc (0xd800 + (n - 0x10000) / 0x400) ++ hexEsc (0xdc00 + (n - 0x10000) % 0x400)
  else
    hexEsc n

/-- Escape one character of a JSON string as `json.dumps` (default
`ensure_ascii=True`) does: the two-character escapes for quote, backslash
and the common control characters, `\uXXXX` for the remaining control
and all non-ASCII characters, the character itself otherwise. -/
def escChar (c : Char) : List Char :=
  if c = '"' then ['\\', '"']
  else if c = '\\' then ['\\', '\\']
  else if c = '\n' then ['\\', 'n']
  else if c = '\r' then ['\\', 'r']
  else if c = '\t' then ['\\', 't']
  else if c.toNat = 8 then ['\\', 'b']
  else if c.toNat = 12 then ['\\', 'f']
  else if c.toNat < 32 ∨ c.toNat ≥ 127 then uEscape c.toNat
  else [c]

/-- Serialized JSON string: quote, escaped characters, quote. -/
def escString (s : String) : List Char :=
  '"' :: (s.data.map escChar).flatten ++ ['"']

/-- Decimal digits of a natural number, most significant first (fuelled so
that the definition is structural and evaluates by `decide`). -/
def natDigitsAux : Nat → Nat → List Nat
  | 0, _ => []
  | fuel + 1, n => if n < 10 then [n] else natDigitsAux fuel (n / 10) ++ [n % 10]

/-- Decimal digits of a natural number, most significant first. -/
def natDigits (n : Nat) : List Nat :=
  natDigitsAux (n + 1) n

/-- Decimal rendering of a Python `int`, as `json.dumps` prints it. -/
def intChars (n : Int) : List Char :=
  (if n < 0 then ['-'] else []) ++ (natDigits n.natAbs).map hexDigit

/-- Rendering of a float from its stored digit components (Python's float
`repr` normalisation is abstracted; no newline can occur either way). -/
def fltChars (neg : Bool) (ip fp : List Nat) (eneg : Bool) (ep : List Nat) : List Char :=
  (if neg then ['-'] else []) ++ ip.map hexDigit
    ++ (if fp.isEmpty then [] else '.' :: fp.map hexDigit)
    ++ (if ep.isEmpty then [] else
          'e' :: ((if eneg then ['-'] else []) ++ ep.map hexDigit))

mutual

/-- `json.dumps` on a Python value (default separators `", "` and `": "`):
`none` models the `TypeError` raised on a non-serializable object. -/
def dumpsVal : PyVal → Option (List Char)
  | .null => some "null".data
  | .bool true => some "true".data
  | .bool false => some "false".data
  | .num n => some (intChars n)
  | .flt neg ip fp eneg ep => some (fltChars neg ip fp eneg ep)
  | .str s => some (escString s)
  | .arr xs =>
    match dumpsArr xs with
    | some body => some ('[' :: body ++ [']'])
    | none => none
  | .obj kvs =>
    match dumpsObj kvs with
    | some body => some ('\x7b' :: body ++ ['\x7d'])
    | none => none
  | .blob _ => none

/-- Comma-joined serialization of array elements. -/
def dumpsArr : List PyVal → Option (List Char)
  | [] => some []
  | [x] => dumpsVal x
  | x :: y :: rest =>
    match dumpsVal x, dumpsArr (y :: rest) with
    | some a, some b => some (a ++ ',' :: ' ' :: b)
    | _, _ => none

/-- Comma-joined serialization of object entries (`"key": value`). -/
def dumpsObj : List (String × PyVal) → Option (List Char)
  | [] => some []
  | [(k, v)] =>
    match dumpsVal v with
    | some a => some (escString k ++ ':' :: ' ' :: a)
    | none => none
  | (k, v) :: e :: rest =>
    match dumpsVal v, dumpsObj (e :: rest) with
    | some a, some b => some ((escString k ++ ':' :: ' ' :: a) ++ ',' :: ' ' :: b)
    | _, _ => none

end

/-- Total variant of `dumpsVal` (defaulting to `[]`), used to name the
payload in theorem statements. -/
def dumpsValD (v : PyVal) : List Char :=
  (dumpsVal v).getD []

/-! ## Command registry and `_handle_command` (lines 45-102) -/

/-- The keys of the `handlers` dict built in `_handle_command`, in source
order (lines 49-93). -/
def handlerNames : List String :=
  ["ping", "list_objects", "get_object_info", "delete_object", "clear_scene",
   "get_scene_info", "create_cube", "create_sphere", "create_uv_sphere",
   "create_ico_sphere", "create_cylinder", "create_cone", "create_torus",
   "create_plane", "create_circle", "create_monkey", "create_text",
   "create_bezier_curve", "set_location", "set_rotation", "set_scale",
   "translate", "rotate", "scale", "add_modifier", "apply_modifier",
   "remove_modifier", "boolean_operation", "set_material", "set_parent",
   "clear_parent", "export_stl", "export_obj", "export_fbx", "export_gltf",
   "import_stl", "import_obj", "import_fbx", "render_image", "set_camera",
   "add_light", "set_render_settings", "run_script"]

/-- Outcome of running one handler body (`handler(params)` on line 100):
either a returned Python value or a raised exception, recorded as
`str(e)` and `traceback.format_exc()`. -/
inductive HandlerOutcome where
  | ok (v : PyVal) : HandlerOutcome
  | exn (msg : String) (tb : String) : HandlerOutcome

/-- Handler bodies call into Blender state, which is external to the
bridge; their semantics is an oracle from command name and params. -/
def HandlerSem : Type :=
  String → PyVal → HandlerOutcome

/-- Python `dict.get(key, default)` on an object's fields.  `json.loads`
keeps the last occurrence of a duplicated key, so lookup takes the last
binding. -/
def pyGet (kvs : List (String × PyVal)) (key : String) (dflt : PyVal) : PyVal :=
  kvs.foldl (fun acc kv => if kv.1 = key then kv.2 else acc) dflt

/-- Python `str()` as used by the f-string on line 97 when the
`"command"` value is not a string (containers and floats are abstracted
to a fixed rendering; no claim depends on them). -/
def pyStrOf : PyVal → String
  | .null => "None"
  | .bool true => "True"
  | .bool false => "False"
  | .num n => ⟨intChars n⟩
  | .flt neg ip fp eneg ep => ⟨fltChars neg ip fp eneg ep⟩
  | .str s => s
  | .arr _ => "[...]"
  | .obj _ => "\x7b...\x7d"
  | .blob tag => tag

/-- The unknown-command failure of line 97:
`{"ok": False, "error": f"Comando sconosciuto: '{cmd}'", "available": list(handlers.keys())}`. -/
def unknownCmdResponse (cmd : String) : PyVal :=
  .obj [("ok", .bool false),
        ("error", .str ("Comando sconosciuto: \x27" ++ cmd ++ "\x27")),
        ("available", .arr (handlerNames.map PyVal.str))]

/-- `_handle_command(data)` (lines 45-102).  `Except.error` models an
exception escaping `_handle_command` itself: `data.get` on a non-dict
raises `AttributeError`, and `handlers.get(cmd)` with an unhashable `cmd`
(a list or dict) raises `TypeError`, both outside the `try` of line 99.
An exception raised by the handler body is caught on line 101 and turned
into the failure dict of line 102; a normal return is wrapped on line 100. -/
def handleCommand (H : HandlerSem) (data : PyVal) : Except String PyVal :=
  match data with
  | .obj kvs =>
    let cmd := pyGet kvs "command" (.str "")
    let params := pyGet kvs "params" (.obj [])
    match cmd with
    | .str s =>
      if handlerNames.contains s then
        match H s params with
        | .ok v => .ok (.obj [("ok", .bool true), ("result", v)])
        | .exn m tb =>
          .ok (.obj [("ok", .bool false), ("error", .str m), ("traceback", .str tb)])
      else
        .ok (unknownCmdResponse s)
    | .arr _ => .error "TypeError: unhashable type"
    | .obj _ => .error "TypeError: unhashable type"
    | other => .ok (unknownCmdResponse (pyStrOf other))
  | _ => .error "AttributeError: object has no attribute get"

/-- The timeout failure built on line 680:
`{"ok": False, "error": "Timeout 60s."}`. -/
def timeoutResponse : PyVal :=
  .obj [("ok", .bool false), ("error", .str "Timeout 60s.")]

/-- The timer handoff of lines 668-682 for one decoded frame.
`execute_in_main` is scheduled with `bpy.app.timers.register`; the socket
thread waits on `done_event` for at most 60 s.  `late` records whether the
deadline elapsed before the handler completed.  If `_handle_command`
raises inside the timer (non-dict data), `done_event` is never set, so the
wait times out and `result_holder[0]` is still `None`; in both cases
line 680 produces the timeout response, else the handler's response is
used. -/
def dispatchFrame (H : HandlerSem) (late : Bool) (data : PyVal) : PyVal :=
  match handleCommand H data with
  | .error _ => timeoutResponse
  | .ok r => if late then timeoutResponse else r

/-! ## `json.loads` (line 667)

A recursive-descent parser for the JSON grammar CPython's `json` module
accepts, fuelled so the definition is structural.  Error messages carry
the CPython description without the line/column suffix. -/

/-- JSON insignificant whitespace. -/
def isJsonWs (c : Char) : Bool :=
  c = ' ' || c = '\t' || c = '\n' || c = '\r'

/-- Skip insignificant whitespace. -/
def skipWs (cs : List Char) : List Char :=
  cs.dropWhile isJsonWs

/-- Value of one hexadecimal digit of a `\uXXXX` escape. -/
def hexVal (c : Char) : Option Nat :=
  if c.isDigit then some (c.toNat - 48)
  else if 'a' ≤ c && c ≤ 'f' then some (c.toNat - 87)
  else if 'A' ≤ c && c ≤ 'F' then some (c.toNat - 55)
  else none

/-- Decoding of the two-character string escapes. -/
def escDecode (c : Char) : Option Char :=
  if c = '"' then some '"'
  else if c = '\\' then some '\\'
  else if c = '/' then some '/'
  else if c = 'b' then some '\x08'
  else if c = 'f' then some '\x0c'
  else if c = 'n' then some '\n'
  else if c = 'r' then some '\r'
  else if c = 't' then some '\t'
  else none

/-- Body of a JSON string after the opening quote: content and remainder
after the closing quote.  Unescaped control characters are rejected, as in
CPython's strict mode.  Surrogate-pair recombination is abstracted: each
`\uXXXX` yields the code point directly (`Char.ofNat`, which maps
unrepresentable lone surrogates to NUL). -/
def parseStringAux : Nat → List Char → Except String (List Char × List Char)
  | 0, _ => .error "fuel exhausted"
  | _ + 1, [] => .error "Unterminated string starting at"
  | _ + 1, '"' :: rest => .ok ([], rest)
  | fuel + 1, '\\' :: rest =>
    match rest with
    | 'u' :: h1 :: h2 :: h3 :: h4 :: rest4 =>
      match hexVal h1, hexVal h2, hexVal h3, hexVal h4 with
      | some a, some b, some c, some d =>
        match parseStringAux fuel rest4 with
        | .ok (s, r) => .ok (Char.ofNat (a * 4096 + b * 256 + c * 16 + d) :: s, r)
        | .error e => .error e
      | _, _, _, _ => .error "Invalid \\uXXXX escape"
    | 'u' :: _ => .error "Invalid \\uXXXX escape"
    | e :: rest2 =>
      match escDecode e with
      | some c =>
        match parseStringAux fuel rest2 with
        | .ok (s, r) => .ok (c :: s, r)
        | .error e => .error e
      | none => .error "Invalid \\escape"
    | [] => .error "Unterminated string starting at"
  | fuel + 1, c :: rest =>
    if c.toNat < 32 then .error "Invalid control character"
    else
      match parseStringAux fuel rest with
      | .ok (s, r) => .ok (c :: s, r)
      | .error e => .error e

/-- Leading decimal digits of the input, as values, with the remainder. -/
def digitsOf : List Char → List Nat × List Char
  | [] => ([], [])
  | c :: rest =>
    if c.isDigit then
      let (ds, r) := digitsOf rest
      ((c.toNat - 48) :: ds, r)
    else ([], c :: rest)

/-- Natural number denoted by a most-significant-first digit list. -/
def natFromDigits (ds : List Nat) : Nat :=
  ds.foldl (fun a d => a * 10 + d) 0

/-- Fraction and exponent continuation of a numeric literal, following
CPython's maximal-munch `NUMBER_RE`: a fraction or exponent is consumed
only when complete (so `1.` parses as `1` leaving `.` behind).  An
integer literal yields `num`, anything with a fraction or exponent part
yields `flt`. -/
def continueNum (neg : Bool) (ip : List Nat) (cs : List Char) : PyVal × List Char :=
  let (fp, cs2) :=
    match cs with
    | '.' :: d :: rest => if d.isDigit then digitsOf (d :: rest) else ([], cs)
    | _ => ([], cs)
  let (eneg, ep, cs3) :=
    match cs2 with
    | 'e' :: '+' :: d :: rest =>
      if d.isDigit then
        let (ds, r) := digitsOf (d :: rest); (false, ds, r)
      else (false, [], cs2)
    | 'E' :: '+' :: d :: rest =>
      if d.isDigit then
        let (ds, r) := digitsOf (d :: rest); (false, ds, r)
      else (false, [], cs2)
    | 'e' :: '-' :: d :: rest =>
      if d.isDigit then
        let (ds, r) := digitsOf (d :: rest); (true, ds, r)
      else (false, [], cs2)
    | 'E' :: '-' :: d :: rest =>
      if d.isDigit then
        let (ds, r) := digitsOf (d :: rest); (true, ds, r)
      else (false, [], cs2)
    | 'e' :: d :: rest =>
      if d.isDigit then
        let (ds, r) := digitsOf (d :: rest); (false, ds, r)
      else (false, [], cs2)
    | 'E' :: d :: rest =>
      if d.isDigit then
        let (ds, r) := digitsOf (d :: rest); (false, ds, r)
      else (false, [], cs2)
    | _ => (false, [], cs2)
  if fp.isEmpty && ep.isEmpty then
    ((.num ((if neg then -1 else 1) * (natFromDigits ip : Int))), cs2)
  else
    (.flt neg ip fp eneg ep, cs3)

/-- Numeric literal: optional minus, then `0` alone or a nonzero-led digit
run (a leading zero stops the integer part, as in the JSON grammar), then
the fraction/exponent continuation. -/
def parseNumber (cs : List Char) : Except String (PyVal × List Char) :=
  let (neg, cs1) := match cs with
    | '-' :: r => (true, r)
    | _ => (false, cs)
  match cs1 with
  | '0' :: rest => .ok (continueNum neg [0] rest)
  | c :: _ =>
    if c.isDigit then
      let (ds, r) := digitsOf cs1
      .ok (continueNum neg ds r)
    else .error "Expecting value"
  | [] => .error "Expecting value"

mutual

/-- One JSON value (after whitespace), fuelled. -/
def parseValue : Nat → List Char → Except String (PyVal × List Char)
  | 0, _ => .error "fuel exhausted"
  | fuel + 1, cs =>
    match skipWs cs with
    | [] => .error "Expecting value"
    | 'n' :: 'u' :: 'l' :: 'l' :: rest => .ok (.null, rest)
    | 't' :: 'r' :: 'u' :: 'e' :: rest => .ok (.bool true, rest)
    | 'f' :: 'a' :: 'l' :: 's' :: 'e' :: rest => .ok (.bool false, rest)
    | '"' :: rest =>
      match parseStringAux (rest.length + 1) rest with
      | .ok (s, r) => .ok (.str ⟨s⟩, r)
      | .error e => .error e
    | '[' :: rest =>
      match skipWs rest with
      | ']' :: r2 => .ok (.arr [], r2)
      | _ => parseArrayRest fuel rest []
    | '\x7b' :: rest =>
      match skipWs rest with
      | '\x7d' :: r2 => .ok (.obj [], r2)
      | _ => parseObjRest fuel rest []
    | c :: rest =>
      if c = '-' || c.isDigit then parseNumber (c :: rest)
      else .error "Expecting value"

/-- Array items after the first `[` (nonempty case). -/
def parseArrayRest : Nat → List Char → List PyVal → Except String (PyVal × List Char)
  | 0, _, _ => .error "fuel exhausted"
  | fuel + 1, cs, acc =>
    match parseValue fuel cs with
    | .error e => .error e
    | .ok (v, r) =>
      match skipWs r with
      | ',' :: r2 => parseArrayRest fuel r2 (acc ++ [v])
      | ']' :: r2 => .ok (.arr (acc ++ [v]), r2)
      | _ => .error "Expecting delimiter"

/-- Object entries after the first `{` (nonempty case). -/
def parseObjRest : Nat → List Char → List (String × PyVal) →
    Except String (PyVal × List Char)
  | 0, _, _ => .error "fuel exhausted"
  | fuel + 1, cs, acc =>
    match skipWs cs with
    | '"' :: rest =>
      match parseStringAux (rest.length + 1) rest with
      | .error e => .error e
      | .ok (k, r) =>
        match skipWs r with
        | ':' :: r2 =>
          match parseValue fuel r2 with
          | .error e => .error e
          | .ok (v, r3) =>
            match skipWs r3 with
            | ',' :: r4 => parseObjRest fuel r4 (acc ++ [(⟨k⟩, v)])
            | '\x7d' :: r4 => .ok (.obj (acc ++ [(⟨k⟩, v)]), r4)
            | _ => .error "Expecting delimiter"
        | _ => .error "Expecting colon delimiter"
    | _ => .error "Expecting property name enclosed in double quotes"

end

/-- `json.loads` on the decoded line: parse one value, then require only
whitespace to remain (`Extra data` otherwise).  The fuel `2*n+2` is
sufficient: every two fuel steps consume at least one input character. -/
def pyLoads (cs : List Char) : Except String PyVal :=
  match parseValue (2 * cs.length + 2) cs with
  | .error e => .error e
  | .ok (v, rest) => if (skipWs rest).isEmpty then .ok v else .error "Extra data"

/-! ## The connection handler `_handle_client` (lines 654-691) -/

/-- ASCII whitespace as removed by Python `bytes.strip()`; a line is
skipped when `not line.strip()` (line 664), i.e. when all its characters
are such whitespace. -/
def isPyWs (c : Char) : Bool :=
  c = ' ' || c = '\t' || c = '\n' || c = '\r' || c = '\x0b' || c = '\x0c'

/-- The decode failure built on line 684:
`{"ok": False, "error": f"JSON non valido: {e}"}`. -/
def decodeErrorResponse (e : String) : PyVal :=
  .obj [("ok", .bool false), ("error", .str ("JSON non valido: " ++ e))]

/-- Effect of one complete line taken from the buffer (body of the inner
`while` loop, lines 663-687): blank lines are skipped; otherwise the line
is decoded (`json.loads`, giving the decode failure of line 684 on a
`JSONDecodeError`) or dispatched through the timer handoff, and the
response is serialized.  `reply` carries the `json.dumps` payload to be
sent followed by the delimiter; `abort` models the `TypeError` raised by
`json.dumps` on line 686 for a non-serializable response, which no
`except` clause of `_handle_client` catches, so it ends the handler
(closing the socket in the `finally`). -/
inductive FrameResult where
  | skip : FrameResult
  | reply (payload : List Char) : FrameResult
  | abort : FrameResult
  deriving DecidableEq

/-- Processing of one complete line. -/
def processLine (H : HandlerSem) (late : Bool) (line : List Char) : FrameResult :=
  if line.all isPyWs then .skip
  else
    let response : PyVal :=
      match pyLoads line with
      | .error e => decodeErrorResponse e
      | .ok data => dispatchFrame H late data
    match dumpsVal response with
    | some payload => .reply payload
    | none => .abort

/-- `buffer.split(b"\n", 1)` guarded by `b"\n" in buffer` (lines 662-663):
the part before the first delimiter and the part after it, or `none` when
no delimiter is present. -/
def splitFirstNL : List Char → Option (List Char × List Char)
  | [] => none
  | c :: rest =>
    if c = '\n' then some ([], rest)
    else
      match splitFirstNL rest with
      | none => none
      | some (l, r) => some (c :: l, r)

/-- The inner drain loop (lines 662-687), fuelled (each iteration removes
at least the delimiter, so `buf.length` is enough fuel): emitted wire
frames (payload plus delimiter), the remaining buffer, and whether the
handler aborted (serialization `TypeError`).  On abort the loop is left
immediately and the buffer is dead (the socket is closed). -/
def drainAux (step : List Char → FrameResult) :
    Nat → List Char → List (List Char) × List Char × Bool
  | 0, buf => ([], buf, false)
  | fuel + 1, buf =>
    match splitFirstNL buf with
    | none => ([], buf, false)
    | some (line, rest) =>
      match step line with
      | .skip => drainAux step fuel rest
      | .reply r =>
        let (os, b, a) := drainAux step fuel rest
        ((r ++ ['\n']) :: os, b, a)
      | .abort => ([], [], true)

/-- Drain all complete lines currently in the buffer. -/
def drainBuffer (step : List Char → FrameResult) (buf : List Char) :
    List (List Char) × List Char × Bool :=
  drainAux step buf.length buf

/-- State of one connection: receive buffer, wire frames written so far,
and whether the handler thread has died on a serialization error. -/
structure ConnState where
  buffer : List Char
  out : List (List Char)
  aborted : Bool
  deriving DecidableEq

/-- The connection state after `recv` returns `chunk` (lines 658-687):
append to the buffer and drain complete lines.  After an abort the thread
is gone, so further input has no effect. -/
def feedChunk (step : List Char → FrameResult) (st : ConnState) (chunk : List Char) :
    ConnState :=
  if st.aborted then st
  else
    let (os, b, a) := drainBuffer step (st.buffer ++ chunk)
    ⟨b, st.out ++ os, a⟩

/-- Run the `recv` loop from a given state over a list of received chunks;
an empty chunk is end-of-stream (`if not chunk: break`, line 659). -/
def runConnFrom (step : List Char → FrameResult) :
    ConnState → List (List Char) → ConnState
  | st, [] => st
  | st, c :: cs =>
    if c.isEmpty then st else runConnFrom step (feedChunk step st c) cs

/-- Run a whole connection from the initial state (`buffer = b""`). -/
def runConn (step : List Char → FrameResult) (chunks : List (List Char)) : ConnState :=
  runConnFrom step ⟨[], [], false⟩ chunks

/-- The complete (delimited) lines of a stream, in order. -/
def completeLinesAux : Nat → List Char → List (List Char)
  | 0, _ => []
  | fuel + 1, w =>
    match splitFirstNL w with
    | none => []
    | some (l, r) => l :: completeLinesAux fuel r

/-- The complete (delimited) lines of a stream, in order. -/
def completeLines (w : List Char) : List (List Char) :=
  completeLinesAux w.length w

/-- The accepted requests of a stream: its complete non-blank lines. -/
def requestLines (w : List Char) : List (List Char) :=
  (completeLines w).filter (fun l => !l.all isPyWs)

/-- The wire frame answering one accepted request (meaningful whenever
`processLine` yields a reply). -/
def responseFrame (H : HandlerSem) (late : Bool) (line : List Char) : List Char :=
  match processLine H late line with
  | .reply r => r ++ ['\n']
  | _ => []

/-! ## Server lifecycle operators (lines 723-750)

The module globals `_running` and `_server_thread`, plus a counter of
accept-loop threads ever spawned (each `threading.Thread(...).start()` on
line 734 creates a new one).  The operator bodies contain no raising
operations, so `execute` is a total function on this state; the
`self.report` level and the operator return set are part of the result. -/

/-- The lifecycle-relevant module globals. -/
structure AddonState where
  running : Bool
  serverThread : Option Nat
  spawned : Nat
  deriving DecidableEq

/-- Return value of a Blender operator `execute`. -/
inductive OpStatus where
  | finished : OpStatus
  | cancelled : OpStatus
  deriving DecidableEq

/-- `MCP_OT_StartServer.execute` (lines 727-736): when already running,
report a warning and return `CANCELLED` without touching anything;
otherwise set the flag, spawn a fresh accept-loop thread and store it. -/
def startServerExec (s : AddonState) : AddonState × String × OpStatus :=
  if s.running then (s, "WARNING", .cancelled)
  else
    ({ running := true, serverThread := some s.spawned, spawned := s.spawned + 1 },
     "INFO", .finished)

/-- `MCP_OT_StopServer.execute` (lines 743-750): when not running, report
a warning and return `CANCELLED`; otherwise clear the flag (the thread
reference is left as is). -/
def stopServerExec (s : AddonState) : AddonState × String × OpStatus :=
  if s.running then ({ s with running := false }, "INFO", .finished)
  else (s, "WARNING", .cancelled)

/-! ## Sample handler semantics used as concrete inputs -/

/-- A handler table where every body returns the `cmd_ping` payload shape. -/
def pongSem : HandlerSem :=
  fun _ _ => .ok (.obj [("status", .str "alive")])

/-- A handler table modelling `cmd_run_script` when the script ends with
`result = [bpy]`: the `isinstance` check on line 645 passes (a `list`),
so the module object inside the list reaches `json.dumps` unconverted. -/
def scriptBlobSem : HandlerSem :=
  fun _ _ => .ok (.obj [("script_result", .arr [.blob "module bpy"])])

/-- A handler table where every body raises (as `_get_obj` does on a
missing object name, line 110). -/
def raiseSem : HandlerSem :=
  fun _ _ => .exn "Oggetto \x27Cube\x27 non trovato." "Traceback (most recent call last)"

/-! ## Lemmas about the framing loop -/

theorem splitFirstNL_spec (l : List Char) :
    (splitFirstNL l = none ∧ '\n' ∉ l) ∨
    (∃ a b, splitFirstNL l = some (a, b) ∧ l = a ++ '\n' :: b ∧ '\n' ∉ a) := by
  induction l with
  | nil => left; simp [splitFirstNL]
  | cons c rest ih =>
    by_cases hc : c = '\n'
    · subst hc
      right
      exact ⟨[], rest, by simp [splitFirstNL], by simp, by simp⟩
    · rcases ih with ⟨h1, h2⟩ | ⟨a, b, h1, h2, h3⟩
      · left
        refine ⟨by simp [splitFirstNL, hc, h1], ?_⟩
        intro hmem
        rcases List.mem_cons.mp hmem with hh | hh
        · exact hc hh.symm
        · exact h2 hh
      · right
        refine ⟨c :: a, b, by simp [splitFirstNL, hc, h1], by simp [h2], ?_⟩
        intro hmem
        rcases List.mem_cons.mp hmem with hh | hh
        · exact hc hh.symm
        · exact h3 hh

theorem splitFirstNL_eq_none {l : List Char} :
    splitFirstNL l = none ↔ '\n' ∉ l := by
  rcases splitFirstNL_spec l with ⟨h1, h2⟩ | ⟨a, b, h1, h2, h3⟩
  · simp [h1, h2]
  · simp only [h1]
    constructor
    · intro hcontra; cases hcontra
    · intro hnm
      exfalso
      apply hnm
      rw [h2]
      simp

theorem splitFirstNL_some_parts {buf l r : List Char}
    (h : splitFirstNL buf = some (l, r)) :
    buf = l ++ '\n' :: r ∧ '\n' ∉ l := by
  rcases splitFirstNL_spec buf with ⟨h1, _⟩ | ⟨a, b, h1, h2, h3⟩
  · rw [h1] at h; cases h
  · rw [h1] at h
    simp only [Option.some.injEq, Prod.mk.injEq] at h
    obtain ⟨ha, hb⟩ := h
    subst ha; subst hb
    exact ⟨h2, h3⟩

theorem splitFirstNL_newline {l : List Char} (r : List Char) (h : '\n' ∉ l) :
    splitFirstNL (l ++ '\n' :: r) = some (l, r) := by
  induction l with
  | nil => simp [splitFirstNL]
  | cons c rest ih =>
    have hc : ¬ c = '\n' := fun hh => h (by simp [hh])
    have hrest : '\n' ∉ rest := fun hm => h (List.mem_cons_of_mem _ hm)
    simp [splitFirstNL, hc, ih hrest]

theorem splitFirstNL_append_some {x l r : List Char} (y : List Char)
    (h : splitFirstNL x = some (l, r)) :
    splitFirstNL (x ++ y) = some (l, r ++ y) := by
  obtain ⟨hx, hnl⟩ := splitFirstNL_some_parts h
  rw [hx, List.append_assoc, List.cons_append]
  exact splitFirstNL_newline (r ++ y) hnl

theorem drainAux_fuel (step : List Char → FrameResult) (f g : Nat) (buf : List Char)
    (hf : buf.length ≤ f) (hg : buf.length ≤ g) :
    drainAux step f buf = drainAux step g buf := by
  induction f generalizing g buf with
  | zero =>
    have hb : buf = [] := List.length_eq_zero.mp (Nat.le_zero.mp hf)
    subst hb
    cases g <;> simp [drainAux, splitFirstNL]
  | succ f ih =>
    cases g with
    | zero =>
      have hb : buf = [] := List.length_eq_zero.mp (Nat.le_zero.mp hg)
      subst hb
      simp [drainAux, splitFirstNL]
    | succ g =>
      cases hs : splitFirstNL buf with
      | none => simp [drainAux, hs]
      | some p =>
        obtain ⟨l, r⟩ := p
        obtain ⟨hbuf, _⟩ := splitFirstNL_some_parts hs
        have hlen : buf.length = l.length + r.length + 1 := by
          rw [hbuf]; simp [List.length_append]; omega
        simp only [drainAux, hs]
        cases hstep : step l with
        | skip => exact ih g r (by omega) (by omega)
        | reply p' => rw [ih g r (by omega) (by omega)]
        | abort => rfl

/-- Draining a buffer with no delimiter is a no-op (decode is resumable). -/
theorem drainBuffer_no_nl_eq (step : List Char → FrameResult) {buf : List Char}
    (h : '\n' ∉ buf) : drainBuffer step buf = ([], buf, false) := by
  have hs : splitFirstNL buf = none := splitFirstNL_eq_none.mpr h
  cases buf with
  | nil => rfl
  | cons c cs => simp [drainBuffer, drainAux, hs]

theorem drainBuffer_cons_line (step : List Char → FrameResult) {l : List Char}
    (r : List Char) (h : '\n' ∉ l) :
    drainBuffer step (l ++ '\n' :: r) =
      match step l with
      | .skip => drainBuffer step r
      | .reply p =>
        ((p ++ ['\n']) :: (drainBuffer step r).1,
         (drainBuffer step r).2.1, (drainBuffer step r).2.2)
      | .abort => ([], [], true) := by
  have hs : splitFirstNL (l ++ '\n' :: r) = some (l, r) := splitFirstNL_newline r h
  have hlen : (l ++ '\n' :: r).length = l.length + r.length + 1 := by
    simp [List.length_append]; omega
  show drainAux step (l ++ '\n' :: r).length (l ++ '\n' :: r) = _
  rw [hlen]
  simp only [drainAux, hs]
  cases hstep : step l with
  | skip => exact drainAux_fuel step _ _ r (by omega) (le_refl _)
  | reply p' => rw [drainAux_fuel step (l.length + r.length) r.length r (by omega) (le_refl _)]; rfl
  | abort => rfl

theorem drainBuffer_buffer_no_nl (step : List Char → FrameResult) (buf : List Char) :
    '\n' ∉ (drainBuffer step buf).2.1 := by
  suffices h : ∀ f b, b.length ≤ f → '\n' ∉ (drainAux step f b).2.1 by
    exact h buf.length buf (le_refl _)
  intro f
  induction f with
  | zero =>
    intro b hb
    have : b = [] := List.length_eq_zero.mp (Nat.le_zero.mp hb)
    subst this
    simp [drainAux]
  | succ f ih =>
    intro b hb
    cases hs : splitFirstNL b with
    | none =>
      simp only [drainAux, hs]
      exact splitFirstNL_eq_none.mp hs
    | some p =>
      obtain ⟨l, r⟩ := p
      obtain ⟨hbuf, _⟩ := splitFirstNL_some_parts hs
      have hlen : b.length = l.length + r.length + 1 := by
        rw [hbuf]; simp [List.length_append]; omega
      simp only [drainAux, hs]
      cases hstep : step l with
      | skip => exact ih r (by omega)
      | reply p' => simpa using ih r (by omega)
      | abort => simp

theorem drainBuffer_append (step : List Char → FrameResult) (y x : List Char) :
    drainBuffer step (x ++ y) =
      if (drainBuffer step x).2.2 then drainBuffer step x
      else ((drainBuffer step x).1 ++ (drainBuffer step ((drainBuffer step x).2.1 ++ y)).1,
            (drainBuffer step ((drainBuffer step x).2.1 ++ y)).2.1,
            (drainBuffer step ((drainBuffer step x).2.1 ++ y)).2.2) := by
  suffices h : ∀ f x, x.length ≤ f →
      drainBuffer step (x ++ y) =
        if (drainBuffer step x).2.2 then drainBuffer step x
        else ((drainBuffer step x).1 ++ (drainBuffer step ((drainBuffer step x).2.1 ++ y)).1,
              (drainBuffer step ((drainBuffer step x).2.1 ++ y)).2.1,
              (drainBuffer step ((drainBuffer step x).2.1 ++ y)).2.2) by
    exact h x.length x (le_refl _)
  intro f
  induction f with
  | zero =>
    intro x hx
    have : x = [] := List.length_eq_zero.mp (Nat.le_zero.mp hx)
    subst this
    simp [drainBuffer, drainAux]
  | succ f ih =>
    intro x hx
    cases hs : splitFirstNL x with
    | none =>
      have hnl : '\n' ∉ x := splitFirstNL_eq_none.mp hs
      rw [drainBuffer_no_nl_eq step hnl]
      simp
    | some p =>
      obtain ⟨l, r⟩ := p
      obtain ⟨hbuf, hnl⟩ := splitFirstNL_some_parts hs
      have hlen : x.length = l.length + r.length + 1 := by
        rw [hbuf]; simp [List.length_append]; omega
      subst hbuf
      rw [List.append_assoc, List.cons_append,
          drainBuffer_cons_line step (r ++ y) hnl, drainBuffer_cons_line step r hnl]
      cases hstep : step l with
      | skip => exact ih r (by omega)
      | reply p' =>
        have hr := ih r (by omega)
        rw [hr]
        cases ha : (drainBuffer step r).2.2 with
        | true => simp [ha]
        | false => simp [ha]
      | abort => simp

theorem feedChunk_aborted (step : List Char → FrameResult) (b : List Char)
    (o : List (List Char)) (c : List Char) :
    feedChunk step ⟨b, o, true⟩ c = ⟨b, o, true⟩ := by
  simp [feedChunk]

theorem feedChunk_not_aborted (step : List Char → FrameResult) (b : List Char)
    (o : List (List Char)) (c : List Char) :
    feedChunk step ⟨b, o, false⟩ c =
      ⟨(drainBuffer step (b ++ c)).2.1, o ++ (drainBuffer step (b ++ c)).1,
       (drainBuffer step (b ++ c)).2.2⟩ := by
  simp only [feedChunk]
  rcases hd : drainBuffer step (b ++ c) with ⟨os, b', a'⟩
  simp [hd]

theorem feedChunk_assoc (step : List Char → FrameResult) (st : ConnState)
    (c1 c2 : List Char) :
    feedChunk step (feedChunk step st c1) c2 = feedChunk step st (c1 ++ c2) := by
  obtain ⟨sbuf, sout, sab⟩ := st
  cases sab with
  | true => simp [feedChunk_aborted]
  | false =>
    have happ := drainBuffer_append step c2 (sbuf ++ c1)
    rcases hd : drainBuffer step (sbuf ++ c1) with ⟨os, b, a⟩
    rw [hd] at happ
    cases a with
    | true =>
      have hflat : drainBuffer step (sbuf ++ (c1 ++ c2)) = (os, b, true) := by
        rw [← List.append_assoc, happ]; simp
      rw [feedChunk_not_aborted, hd, feedChunk_aborted, feedChunk_not_aborted, hflat]
    | false =>
      rcases hd2 : drainBuffer step (b ++ c2) with ⟨os2, b2, a2⟩
      have hflat : drainBuffer step (sbuf ++ (c1 ++ c2)) = (os ++ os2, b2, a2) := by
        rw [← List.append_assoc, happ]
        simp [hd2]
      rw [feedChunk_not_aborted, hd, feedChunk_not_aborted, hd2,
          feedChunk_not_aborted, hflat]
      simp [List.append_assoc]

theorem feedChunk_buffer_no_nl (step : List Char → FrameResult) (st : ConnState)
    (c : List Char) (h : '\n' ∉ st.buffer) : '\n' ∉ (feedChunk step st c).buffer := by
  obtain ⟨sbuf, sout, sab⟩ := st
  cases sab with
  | true => simpa [feedChunk_aborted] using h
  | false =>
    rw [feedChunk_not_aborted]
    exact drainBuffer_buffer_no_nl step (sbuf ++ c)

theorem feedChunk_nil (step : List Char → FrameResult) (st : ConnState)
    (h : '\n' ∉ st.buffer) : feedChunk step st [] = st := by
  obtain ⟨sbuf, sout, sab⟩ := st
  cases sab with
  | true => exact feedChunk_aborted step sbuf sout []
  | false =>
    rw [feedChunk_not_aborted]
    rw [List.append_nil, drainBuffer_no_nl_eq step h]
    simp

theorem runConnFrom_of_aborted (step : List Char → FrameResult) (cs : List (List Char))
    (b : List Char) (o : List (List Char)) :
    runConnFrom step ⟨b, o, true⟩ cs = ⟨b, o, true⟩ := by
  induction cs with
  | nil => rfl
  | cons c cs ih =>
    simp only [runConnFrom]
    cases hc : c.isEmpty with
    | true => rfl
    | false => rw [if_neg (by simp [hc]), feedChunk_aborted, ih]

theorem runConnFrom_out_shift (step : List Char → FrameResult) (cs : List (List Char)) :
    ∀ (b : List Char) (o : List (List Char)) (a : Bool),
      runConnFrom step ⟨b, o, a⟩ cs =
        ⟨(runConnFrom step ⟨b, [], a⟩ cs).buffer,
         o ++ (runConnFrom step ⟨b, [], a⟩ cs).out,
         (runConnFrom step ⟨b, [], a⟩ cs).aborted⟩ := by
  induction cs with
  | nil => intro b o a; simp [runConnFrom]
  | cons c cs ih =>
    intro b o a
    simp only [runConnFrom]
    cases hc : c.isEmpty with
    | true => simp
    | false =>
      rw [if_neg (by simp [hc]), if_neg (by simp [hc])]
      cases a with
      | true =>
        rw [feedChunk_aborted, feedChunk_aborted, ih b o true]
      | false =>
        rw [feedChunk_not_aborted, feedChunk_not_aborted, List.nil_append,
            ih ((drainBuffer step (b ++ c)).2.1)
               (o ++ (drainBuffer step (b ++ c)).1) ((drainBuffer step (b ++ c)).2.2),
            ih ((drainBuffer step (b ++ c)).2.1)
               ((drainBuffer step (b ++ c)).1) ((drainBuffer step (b ++ c)).2.2)]
        simp [List.append_assoc]

theorem runConnFrom_flatten (step : List Char → FrameResult) (cs : List (List Char)) :
    ∀ st : ConnState, '\n' ∉ st.buffer → (∀ c ∈ cs, c ≠ []) →
      runConnFrom step st cs = feedChunk step st cs.flatten := by
  induction cs with
  | nil =>
    intro st hnl _
    exact (feedChunk_nil step st hnl).symm
  | cons c cs ih =>
    intro st hnl hne
    have hc : c ≠ [] := hne c (List.mem_cons_self c cs)
    have hcE : c.isEmpty = false := by
      cases c with
      | nil => exact absurd rfl hc
      | cons a as => rfl
    simp only [runConnFrom, List.flatten_cons, hcE]
    rw [if_neg (by simp),
        ih (feedChunk step st c) (feedChunk_buffer_no_nl step st c hnl)
           (fun d hd => hne d (List.mem_cons_of_mem c hd)),
        feedChunk_assoc]

theorem runConn_flatten (step : List Char → FrameResult) (cs : List (List Char))
    (hne : ∀ c ∈ cs, c ≠ []) :
    runConn step cs = runConn step [cs.flatten] := by
  unfold runConn
  rw [runConnFrom_flatten step cs ⟨[], [], false⟩ (by simp) hne]
  cases hfl : cs.flatten.isEmpty with
  | true =>
    have : cs.flatten = [] := by simpa using hfl
    rw [this, feedChunk_nil step ⟨[], [], false⟩ (by simp)]
    rfl
  | false =>
    simp [runConnFrom, hfl]

theorem completeLinesAux_fuel (f g : Nat) (w : List Char)
    (hf : w.length ≤ f) (hg : w.length ≤ g) :
    completeLinesAux f w = completeLinesAux g w := by
  induction f generalizing g w with
  | zero =>
    have hb : w = [] := List.length_eq_zero.mp (Nat.le_zero.mp hf)
    subst hb
    cases g <;> simp [completeLinesAux, splitFirstNL]
  | succ f ih =>
    cases g with
    | zero =>
      have hb : w = [] := List.length_eq_zero.mp (Nat.le_zero.mp hg)
      subst hb
      simp [completeLinesAux, splitFirstNL]
    | succ g =>
      cases hs : splitFirstNL w with
      | none => simp [completeLinesAux, hs]
      | some p =>
        obtain ⟨l, r⟩ := p
        obtain ⟨hbuf, _⟩ := splitFirstNL_some_parts hs
        have hlen : w.length = l.length + r.length + 1 := by
          rw [hbuf]; simp [List.length_append]; omega
        simp only [completeLinesAux, hs]
        rw [ih g r (by omega) (by omega)]

theorem completeLines_no_nl {w : List Char} (h : '\n' ∉ w) :
    completeLines w = [] := by
  have hs : splitFirstNL w = none := splitFirstNL_eq_none.mpr h
  cases w with
  | nil => rfl
  | cons c cs => simp [completeLines, completeLinesAux, hs]

theorem completeLines_cons_line {l : List Char} (r : List Char) (h : '\n' ∉ l) :
    completeLines (l ++ '\n' :: r) = l :: completeLines r := by
  have hs : splitFirstNL (l ++ '\n' :: r) = some (l, r) := splitFirstNL_newline r h
  have hlen : (l ++ '\n' :: r).length = l.length + r.length + 1 := by
    simp [List.length_append]; omega
  show completeLinesAux (l ++ '\n' :: r).length (l ++ '\n' :: r) = _
  rw [hlen]
  simp only [completeLinesAux, hs]
  rw [completeLinesAux_fuel (l.length + r.length) r.length r (by omega) (le_refl _)]
  rfl

/-- When no line of the buffer aborts, the drain loop emits exactly one
wire frame per non-skipped complete line, in order, and does not abort. -/
theorem drainBuffer_frames (step : List Char → FrameResult) :
    ∀ w : List Char, (∀ l ∈ completeLines w, step l ≠ .abort) →
      (drainBuffer step w).1 =
        (completeLines w).filterMap
          (fun l => match step l with
            | .reply p => some (p ++ ['\n'])
            | _ => none) ∧
      (drainBuffer step w).2.2 = false := by
  suffices h : ∀ f w, w.length ≤ f → (∀ l ∈ completeLines w, step l ≠ .abort) →
      (drainBuffer step w).1 =
        (completeLines w).filterMap
          (fun l => match step l with
            | .reply p => some (p ++ ['\n'])
            | _ => none) ∧
      (drainBuffer step w).2.2 = false by
    intro w hab
    exact h w.length w (le_refl _) hab
  intro f
  induction f with
  | zero =>
    intro w hw hab
    have : w = [] := List.length_eq_zero.mp (Nat.le_zero.mp hw)
    subst this
    simp [drainBuffer, drainAux, completeLines, completeLinesAux]
  | succ f ih =>
    intro w hw hab
    cases hs : splitFirstNL w with
    | none =>
      have hnl : '\n' ∉ w := splitFirstNL_eq_none.mp hs
      rw [drainBuffer_no_nl_eq step hnl, completeLines_no_nl hnl]
      simp
    | some p =>
      obtain ⟨l, r⟩ := p
      obtain ⟨hbuf, hnl⟩ := splitFirstNL_some_parts hs
      have hlen : w.length = l.length + r.length + 1 := by
        rw [hbuf]; simp [List.length_append]; omega
      subst hbuf
      rw [drainBuffer_cons_line step r hnl, completeLines_cons_line r hnl]
      rw [completeLines_cons_line r hnl] at hab
      have habr : ∀ l ∈ completeLines r, step l ≠ .abort :=
        fun d hd => hab d (List.mem_cons_of_mem l hd)
      have ihr := ih r (by omega) habr
      cases hstep : step l with
      | skip => simpa [hstep] using ihr
      | reply p' => simpa [hstep] using ihr
      | abort => exact absurd hstep (hab l (List.mem_cons_self l _))

theorem processLine_blank (H : HandlerSem) (late : Bool) (l : List Char)
    (h : l.all isPyWs = true) : processLine H late l = .skip := by
  simp [processLine, h]

theorem processLine_not_skip (H : HandlerSem) (late : Bool) (l : List Char)
    (h : l.all isPyWs = false) : processLine H late l ≠ .skip := by
  simp only [processLine, h, Bool.false_eq_true, if_false]
  cases hd : dumpsVal (match pyLoads l with
    | .error e => decodeErrorResponse e
    | .ok data => dispatchFrame H late data) <;> simp [hd]

theorem requestLines_map (H : HandlerSem) (late : Bool) (ls : List (List Char))
    (hab : ∀ l ∈ ls, processLine H late l ≠ .abort) :
    ls.filterMap (fun l => match processLine H late l with
      | .reply p => some (p ++ ['\n'])
      | _ => none)
      = (ls.filter (fun l => !l.all isPyWs)).map (responseFrame H late) := by
  induction ls with
  | nil => rfl
  | cons l ls ih =>
    have ihr := ih (fun d hd => hab d (List.mem_cons_of_mem l hd))
    cases hb : l.all isPyWs with
    | true =>
      have hskip := processLine_blank H late l hb
      simp [List.filterMap_cons, List.filter_cons, hskip, hb, ihr]
    | false =>
      cases hp : processLine H late l with
      | skip => exact absurd hp (processLine_not_skip H late l hb)
      | abort => exact absurd hp (hab l (List.mem_cons_self l ls))
      | reply p =>
        simp [List.filterMap_cons, List.filter_cons, hp, hb, ihr, responseFrame]

/-- A whole stream sent as one chunk: one frame per accepted request, in
order, provided no response fails to serialize. -/
theorem runConn_single (H : HandlerSem) (late : Bool) (w : List Char)
    (hab : ∀ l ∈ completeLines w, processLine H late l ≠ .abort) :
    (runConn (processLine H late) [w]).out = (requestLines w).map (responseFrame H late)
    ∧ (runConn (processLine H late) [w]).aborted = false := by
  obtain ⟨h1, h2⟩ := drainBuffer_frames (processLine H late) w hab
  cases hw : w.isEmpty with
  | true =>
    have hwnil : w = [] := by simpa using hw
    subst hwnil
    constructor
    · rfl
    · rfl
  | false =>
    have hrun : runConn (processLine H late) [w]
        = feedChunk (processLine H late) ⟨[], [], false⟩ w := by
      simp [runConn, runConnFrom, hw]
    rw [hrun, feedChunk_not_aborted, List.nil_append]
    refine ⟨?_, h2⟩
    rw [List.nil_append, h1, requestLines, requestLines_map]
    intro l hl
    exact hab l hl

/-- Prepending one full delimited line whose processing replies `p` puts
exactly that one frame in front of the rest of the run. -/
theorem runConn_cons_reply (step : List Char → FrameResult) {l p : List Char}
    (rest : List (List Char)) (hnl : '\n' ∉ l) (hstep : step l = .reply p) :
    runConn step ((l ++ ['\n']) :: rest) =
      ⟨(runConn step rest).buffer,
       (p ++ ['\n']) :: (runConn step rest).out,
       (runConn step rest).aborted⟩ := by
  have hd : drainBuffer step (l ++ ['\n']) = ([p ++ ['\n']], [], false) := by
    have := drainBuffer_cons_line step [] hnl
    rw [hstep] at this
    simpa using this
  have hne : (l ++ ['\n']).isEmpty = false := by
    cases l <;> rfl
  simp only [runConn, runConnFrom, hne]
  rw [if_neg (by simp), feedChunk_not_aborted, List.nil_append, hd]
  exact runConnFrom_out_shift step rest [] [p ++ ['\n']] false

/-- Prepending one full delimited line whose processing aborts kills the
connection: nothing is emitted for it and the rest is never processed. -/
theorem runConn_cons_abort (step : List Char → FrameResult) {l : List Char}
    (rest : List (List Char)) (hnl : '\n' ∉ l) (hstep : step l = .abort) :
    runConn step ((l ++ ['\n']) :: rest) = ⟨[], [], true⟩ := by
  have hd : drainBuffer step (l ++ ['\n']) = ([], [], true) := by
    have := drainBuffer_cons_line step [] hnl
    rw [hstep] at this
    simpa using this
  have hne : (l ++ ['\n']).isEmpty = false := by
    cases l <;> rfl
  simp only [runConn, runConnFrom, hne]
  rw [if_neg (by simp), feedChunk_not_aborted, List.nil_append, hd]
  exact runConnFrom_of_aborted step rest [] []

/-! ## The encoder never emits the delimiter inside a payload -/

theorem hexDigit_ne_nl (n : Nat) : hexDigit n ≠ '\n' := by
  unfold hexDigit
  rcases lt_or_ge n 16 with h | h
  · interval_cases n <;> decide
  · have hlen : ("0123456789abcdef".toList).length = 16 := rfl
    rw [List.getD_eq_default]
    · decide
    · rw [hlen]; exact h

theorem hexEsc_no_nl (n : Nat) : '\n' ∉ hexEsc n := by
  intro hmem
  simp only [hexEsc, List.mem_cons, List.not_mem_nil, or_false] at hmem
  rcases hmem with h | h | h | h | h | h
  · exact absurd h (by decide)
  · exact absurd h (by decide)
  · exact hexDigit_ne_nl _ h.symm
  · exact hexDigit_ne_nl _ h.symm
  · exact hexDigit_ne_nl _ h.symm
  · exact hexDigit_ne_nl _ h.symm

theorem uEscape_no_nl (n : Nat) : '\n' ∉ uEscape n := by
  unfold uEscape
  split
  · intro hmem
    rcases List.mem_append.mp hmem with h | h
    · exact hexEsc_no_nl _ h
    · exact hexEsc_no_nl _ h
  · exact hexEsc_no_nl n

theorem escChar_no_nl (c : Char) : '\n' ∉ escChar c := by
  unfold escChar
  split_ifs with h1 h2 h3 h4 h5 h6 h7 h8
  · decide
  · decide
  · decide
  · decide
  · decide
  · decide
  · decide
  · exact uEscape_no_nl _
  · intro hm
    exact h3 (List.mem_singleton.mp hm).symm

theorem escString_no_nl (s : String) : '\n' ∉ escString s := by
  intro hmem
  rcases List.mem_cons.mp hmem with h | h
  · exact absurd h (by decide)
  · rcases List.mem_append.mp h with h2 | h2
    · obtain ⟨l, hl, hin⟩ := List.mem_flatten.mp h2
      obtain ⟨c, _, hc⟩ := List.mem_map.mp hl
      rw [← hc] at hin
      exact escChar_no_nl c hin
    · exact absurd (List.mem_singleton.mp h2) (by decide)

theorem intChars_no_nl (n : Int) : '\n' ∉ intChars n := by
  intro hmem
  rcases List.mem_append.mp hmem with h | h
  · split at h
    · exact absurd (List.mem_singleton.mp h) (by decide)
    · cases h
  · obtain ⟨d, _, hd⟩ := List.mem_map.mp h
    exact hexDigit_ne_nl d hd

theorem fltChars_no_nl (neg : Bool) (ip fp : List Nat) (eneg : Bool) (ep : List Nat) :
    '\n' ∉ fltChars neg ip fp eneg ep := by
  intro hmem
  unfold fltChars at hmem
  rcases List.mem_append.mp hmem with h | h
  · rcases List.mem_append.mp h with h2 | h2
    · rcases List.mem_append.mp h2 with h3 | h3
      · split at h3
        · exact absurd (List.mem_singleton.mp h3) (by decide)
        · cases h3
      · obtain ⟨d, _, hd⟩ := List.mem_map.mp h3
        exact hexDigit_ne_nl d hd
    · split at h2
      · cases h2
      · rcases List.mem_cons.mp h2 with h3 | h3
        · exact absurd h3 (by decide)
        · obtain ⟨d, _, hd⟩ := List.mem_map.mp h3
          exact hexDigit_ne_nl d hd
  · split at h
    · cases h
    · rcases List.mem_cons.mp h with h3 | h3
      · exact absurd h3 (by decide)
      · rcases List.mem_append.mp h3 with h4 | h4
        · split at h4
          · exact absurd (List.mem_singleton.mp h4) (by decide)
          · cases h4
        · obtain ⟨d, _, hd⟩ := List.mem_map.mp h4
          exact hexDigit_ne_nl d hd

mutual

theorem dumpsVal_no_nl : ∀ (v : PyVal) (s : List Char), dumpsVal v = some s → '\n' ∉ s
  | .null, s, h => by
    simp only [dumpsVal, Option.some.injEq] at h
    rw [← h]; decide
  | .bool true, s, h => by
    simp only [dumpsVal, Option.some.injEq] at h
    rw [← h]; decide
  | .bool false, s, h => by
    simp only [dumpsVal, Option.some.injEq] at h
    rw [← h]; decide
  | .num n, s, h => by
    simp only [dumpsVal, Option.some.injEq] at h
    rw [← h]; exact intChars_no_nl n
  | .flt neg ip fp eneg ep, s, h => by
    simp only [dumpsVal, Option.some.injEq] at h
    rw [← h]; exact fltChars_no_nl neg ip fp eneg ep
  | .str s', s, h => by
    simp only [dumpsVal, Option.some.injEq] at h
    rw [← h]; exact escString_no_nl s'
  | .arr xs, s, h => by
    simp only [dumpsVal] at h
    cases hb : dumpsArr xs with
    | none => rw [hb] at h; cases h
    | some body =>
      rw [hb] at h
      simp only [Option.some.injEq] at h
      rw [← h]
      intro hmem
      rcases List.mem_cons.mp hmem with h2 | h2
      · exact absurd h2 (by decide)
      · rcases List.mem_append.mp h2 with h3 | h3
        · exact dumpsArr_no_nl xs body hb h3
        · exact absurd (List.mem_singleton.mp h3) (by decide)
  | .obj kvs, s, h => by
    simp only [dumpsVal] at h
    cases hb : dumpsObj kvs with
    | none => rw [hb] at h; cases h
    | some body =>
      rw [hb] at h
      simp only [Option.some.injEq] at h
      rw [← h]
      intro hmem
      rcases List.mem_cons.mp hmem with h2 | h2
      · exact absurd h2 (by decide)
      · rcases List.mem_append.mp h2 with h3 | h3
        · exact dumpsObj_no_nl kvs body hb h3
        · exact absurd (List.mem_singleton.mp h3) (by decide)
  | .blob t, s, h => by cases h

theorem dumpsArr_no_nl : ∀ (xs : List PyVal) (s : List Char),
    dumpsArr xs = some s → '\n' ∉ s
  | [], s, h => by
    simp only [dumpsArr, Option.some.injEq] at h
    rw [← h]; decide
  | [x], s, h => dumpsVal_no_nl x s h
  | x :: y :: rest, s, h => by
    simp only [dumpsArr] at h
    cases ha : dumpsVal x with
    | none => rw [ha] at h; cases h
    | some a =>
      cases hb : dumpsArr (y :: rest) with
      | none => rw [ha, hb] at h; cases h
      | some b =>
        rw [ha, hb] at h
        simp only [Option.some.injEq] at h
        rw [← h]
        intro hmem
        rcases List.mem_append.mp hmem with h2 | h2
        · exact dumpsVal_no_nl x a ha h2
        · rcases List.mem_cons.mp h2 with h3 | h3
          · exact absurd h3 (by decide)
          · rcases List.mem_cons.mp h3 with h4 | h4
            · exact absurd h4 (by decide)
            · exact dumpsArr_no_nl (y :: rest) b hb h4

theorem dumpsObj_no_nl : ∀ (kvs : List (String × PyVal)) (s : List Char),
    dumpsObj kvs = some s → '\n' ∉ s
  | [], s, h => by
    simp only [dumpsObj, Option.some.injEq] at h
    rw [← h]; decide
  | [(k, v)], s, h => by
    simp only [dumpsObj] at h
    cases ha : dumpsVal v with
    | none => rw [ha] at h; cases h
    | some a =>
      rw [ha] at h
      simp only [Option.some.injEq] at h
      rw [← h]
      intro hmem
      rcases List.mem_append.mp hmem with h2 | h2
      · exact escString_no_nl k h2
      · rcases List.mem_cons.mp h2 with h3 | h3
        · exact absurd h3 (by decide)
        · rcases List.mem_cons.mp h3 with h4 | h4
          · exact absurd h4 (by decide)
          · exact dumpsVal_no_nl v a ha h4
  | (k, v) :: e :: rest, s, h => by
    simp only [dumpsObj] at h
    cases ha : dumpsVal v with
    | none => rw [ha] at h; cases h
    | some a =>
      cases hb : dumpsObj (e :: rest) with
      | none => rw [ha, hb] at h; cases h
      | some b =>
        rw [ha, hb] at h
        simp only [Option.some.injEq] at h
        rw [← h]
        intro hmem
        rcases List.mem_append.mp hmem with h2 | h2
        · rcases List.mem_append.mp h2 with h3 | h3
          · exact escString_no_nl k h3
          · rcases List.mem_cons.mp h3 with h4 | h4
            · exact absurd h4 (by decide)
            · rcases List.mem_cons.mp h4 with h5 | h5
              · exact absurd h5 (by decide)
              · exact dumpsVal_no_nl v a ha h5
        · rcases List.mem_cons.mp h2 with h3 | h3
          · exact absurd h3 (by decide)
          · rcases List.mem_cons.mp h3 with h4 | h4
            · exact absurd h4 (by decide)
            · exact dumpsObj_no_nl (e :: rest) b hb h4

end

/-- The decode failure always serializes (it is an object of strings). -/
theorem decodeErrorResponse_dumps (e : String) :
    dumpsVal (decodeErrorResponse e) = some (dumpsValD (decodeErrorResponse e)) := rfl

/-- A non-blank line that fails `json.loads` is answered by the decode
failure frame. -/
theorem processLine_decode_error (H : HandlerSem) (late : Bool) {l : List Char}
    {e : String} (hblank : l.all isPyWs = false) (hbad : pyLoads l = .error e) :
    processLine H late l = .reply (dumpsValD (decodeErrorResponse e)) := by
  simp only [processLine, hblank, Bool.false_eq_true, if_false, hbad,
    decodeErrorResponse_dumps]

/-! ## Concrete inputs used by witnesses and counterexamples -/

/-- A well-formed ping request line (no delimiter). -/
def pingLine : List Char :=
  "\x7b\"command\": \"ping\", \"params\": \x7b\x7d\x7d".data

/-- A well-formed `run_script` request line (no delimiter). -/
def blobLine : List Char :=
  "\x7b\"command\": \"run_script\", \"params\": \x7b\x7d\x7d".data

/-- The ping request cut in the middle of a JSON key: first part. -/
def chunkA : List Char := "\x7b\"command\": \"pi".data

/-- The ping request cut in the middle of a JSON key: second part. -/
def chunkB : List Char := "ng\", \"params\": \x7b\x7d\x7d\n".data

/-- The decoded ping request object. -/
def pingData : PyVal := .obj [("command", .str "ping"), ("params", .obj [])]

/-- A success response whose result string contains a raw newline. -/
def sampleResponse : PyVal :=
  .obj [("ok", .bool true), ("result", .str "line1\nline2")]

/-! ## Claims -/

/-- C1: for every connection and sequence of well-formed request frames
(frames whose responses serialize), the sequence of responses written
equals the sequence of decoded requests pairwise in decode order, and the
whole connection state — in particular that response sequence — is
identical whether the bytes arrive in arbitrary nonempty chunks or as one
whole stream (partial-frame bytes are retained in the buffer until a
delimiter arrives). -/
theorem chunking_invariant_pairwise_responses
    (H : HandlerSem) (late : Bool) (chunks : List (List Char))
    (hne : ∀ c ∈ chunks, c ≠ [])
    (hok : ∀ l ∈ completeLines chunks.flatten, processLine H late l ≠ .abort) :
    runConn (processLine H late) chunks = runConn (processLine H late) [chunks.flatten]
    ∧ (runConn (processLine H late) chunks).out
        = (requestLines chunks.flatten).map (responseFrame H late) := by
  have h1 := runConn_flatten (processLine H late) chunks hne
  obtain ⟨h2, _⟩ := runConn_single H late chunks.flatten hok
  exact ⟨h1, by rw [h1]; exact h2⟩

/-- Witness for C1: a ping request split in the middle of a key behaves
exactly as the request sent whole. -/
theorem chunking_invariant_pairwise_responses_witness :
    runConn (processLine pongSem false) [chunkA, chunkB]
        = runConn (processLine pongSem false) [[chunkA, chunkB].flatten]
    ∧ (runConn (processLine pongSem false) [chunkA, chunkB]).out
        = (requestLines [chunkA, chunkB].flatten).map (responseFrame pongSem false) :=
  chunking_invariant_pairwise_responses pongSem false [chunkA, chunkB]
    (by decide) (by decide)

/-- C2 counterexample: a complete, non-blank, decoded request (a
`run_script` whose handler returns a list containing a module) receives
zero response lines although no transport-level loss occurs — the
response fails to serialize, which the claim does not except. -/
theorem one_response_per_request_counterexample :
    (requestLines (blobLine ++ ['\n'])).length = 1
    ∧ (runConn (processLine scriptBlobSem false) [blobLine ++ ['\n']]).out = []
    ∧ (runConn (processLine scriptBlobSem false) [blobLine ++ ['\n']]).aborted = true := by
  refine ⟨by decide, by decide, by decide⟩

/-- C2 amended: for every accepted request exactly one response line is
written, in decode order, provided each frame's response serializes
(responses that fail `json.dumps` yield none and kill the connection, as
does transport-level loss). -/
theorem one_response_per_request (H : HandlerSem) (late : Bool) (w : List Char)
    (hok : ∀ l ∈ completeLines w, processLine H late l ≠ .abort) :
    (runConn (processLine H late) [w]).out
        = (requestLines w).map (responseFrame H late)
    ∧ (runConn (processLine H late) [w]).out.length = (requestLines w).length := by
  obtain ⟨h1, _⟩ := runConn_single H late w hok
  exact ⟨h1, by rw [h1, List.length_map]⟩

/-- Witness for amended C2: a stream with a ping request, a blank line and
a malformed line yields exactly one response per accepted request (the
blank line is skipped, the malformed line gets its decode failure). -/
theorem one_response_per_request_witness :
    (runConn (processLine pongSem false) [pingLine ++ '\n' :: '\n' :: ("oops".data ++ ['\n'])]).out
        = (requestLines (pingLine ++ '\n' :: '\n' :: ("oops".data ++ ['\n']))).map
            (responseFrame pongSem false)
    ∧ (runConn (processLine pongSem false) [pingLine ++ '\n' :: '\n' :: ("oops".data ++ ['\n'])]).out.length
        = (requestLines (pingLine ++ '\n' :: '\n' :: ("oops".data ++ ['\n']))).length :=
  one_response_per_request pongSem false _ (by decide)

/-- C3 counterexample: when the deadline elapses first, the failure
message written by line 680 is the literal `"Timeout 60s."`, not the
`"Timeout after 60s"` the claim states. -/
theorem timeout_message_counterexample :
    dispatchFrame pongSem true pingData
      = .obj [("ok", .bool false), ("error", .str "Timeout 60s.")]
    ∧ "Timeout 60s." ≠ "Timeout after 60s" :=
  ⟨rfl, by decide⟩

/-- C3 amended: for every request whose handler does not complete before
the fixed 60-second deadline, dispatch returns the failure response with
`ok:false` whose error message is the literal string `"Timeout 60s."`. -/
theorem timeout_response_on_deadline (H : HandlerSem) (data : PyVal) :
    dispatchFrame H true data = timeoutResponse
    ∧ timeoutResponse = .obj [("ok", .bool false), ("error", .str "Timeout 60s.")] := by
  refine ⟨?_, rfl⟩
  cases h : handleCommand H data <;> simp [dispatchFrame, h]

/-- C4 counterexample: a frame whose response cannot be serialized
(`run_script` returning a list containing a module object) does close the
connection — the subsequent well-formed ping frame is never answered —
contradicting the claim that unknown exceptions while handling a single
frame never cause the connection to be closed. -/
theorem frame_error_isolation_counterexample :
    processLine scriptBlobSem false blobLine = .abort
    ∧ runConn (processLine scriptBlobSem false)
        [blobLine ++ ['\n'], pingLine ++ ['\n']] = ⟨[], [], true⟩ := by
  refine ⟨by decide, by decide⟩

/-- C4 amended: an exception raised while decoding a single frame or
inside its handler body degrades to a Failure response for that frame
only and leaves the connection open — any frame whose processing yields a
reply (in particular every malformed-JSON frame, whose decode failure
always serializes) contributes exactly that one frame and the rest of the
stream is processed unchanged; but an exception raised while serializing
the response (`json.dumps` `TypeError`, uncaught in `_handle_client`)
terminates the connection, and subsequent frames are not processed. -/
theorem frame_error_isolation (H : HandlerSem) (late : Bool) (l : List Char)
    (rest : List (List Char)) (hnl : '\n' ∉ l) :
    (∀ p, processLine H late l = .reply p →
        runConn (processLine H late) ((l ++ ['\n']) :: rest)
          = ⟨(runConn (processLine H late) rest).buffer,
             (p ++ ['\n']) :: (runConn (processLine H late) rest).out,
             (runConn (processLine H late) rest).aborted⟩)
    ∧ (∀ e, l.all isPyWs = false → pyLoads l = .error e →
        processLine H late l = .reply (dumpsValD (decodeErrorResponse e)))
    ∧ (processLine H late l = .abort →
        runConn (processLine H late) ((l ++ ['\n']) :: rest) = ⟨[], [], true⟩) :=
  ⟨fun _ hp => runConn_cons_reply (processLine H late) rest hnl hp,
   fun _ hb hbad => processLine_decode_error H late hb hbad,
   fun ha => runConn_cons_abort (processLine H late) rest hnl ha⟩

/-- Witness for amended C4: a malformed line is answered with the decode
failure and the following ping request is still processed. -/
theorem frame_error_isolation_witness :
    runConn (processLine pongSem false) [("oops".data ++ ['\n']), pingLine ++ ['\n']]
      = ⟨(runConn (processLine pongSem false) [pingLine ++ ['\n']]).buffer,
         (dumpsValD (decodeErrorResponse "Expecting value") ++ ['\n'])
           :: (runConn (processLine pongSem false) [pingLine ++ ['\n']]).out,
         (runConn (processLine pongSem false) [pingLine ++ ['\n']]).aborted⟩ :=
  (frame_error_isolation pongSem false "oops".data [pingLine ++ ['\n']] (by decide)).1
    (dumpsValD (decodeErrorResponse "Expecting value")) (by decide)

/-- C5: a request whose command name is not registered (names compared
case-sensitively by dict lookup) is answered `ok:false` with an
`available` field listing exactly the registry's keys (`handlerNames`),
so every registered command name appears with none missing. -/
theorem unknown_command_lists_available (H : HandlerSem)
    (kvs : List (String × PyVal)) (s : String)
    (hcmd : pyGet kvs "command" (.str "") = .str s)
    (hunk : handlerNames.contains s = false) :
    handleCommand H (.obj kvs)
      = .ok (.obj [("ok", .bool false),
                   ("error", .str ("Comando sconosciuto: \x27" ++ s ++ "\x27")),
                   ("available", .arr (handlerNames.map PyVal.str))]) := by
  simp only [handleCommand, hcmd, hunk, Bool.false_eq_true, if_false]
  rfl

/-- Witness for C5: an unregistered name gets the enumerating failure. -/
theorem unknown_command_lists_available_witness :
    handleCommand pongSem (.obj [("command", .str "create_dodecahedron")])
      = .ok (.obj [("ok", .bool false),
                   ("error", .str "Comando sconosciuto: \x27create_dodecahedron\x27"),
                   ("available", .arr (handlerNames.map PyVal.str))]) :=
  unknown_command_lists_available pongSem _ "create_dodecahedron" rfl (by decide)

/-- C6: a non-blank line that fails to parse as JSON is answered by an
`ok:false` response carrying the decode-error message of line 684, the
connection is not closed, and the rest of the stream — in particular a
subsequent well-formed request — is processed exactly as it would have
been on its own (the connection is not poisoned). -/
theorem malformed_line_not_poisoning (H : HandlerSem) (late : Bool)
    (l : List Char) (e : String) (rest : List (List Char))
    (hnl : '\n' ∉ l) (hblank : l.all isPyWs = false)
    (hbad : pyLoads l = .error e) :
    decodeErrorResponse e
      = .obj [("ok", .bool false), ("error", .str ("JSON non valido: " ++ e))]
    ∧ processLine H late l = .reply (dumpsValD (decodeErrorResponse e))
    ∧ runConn (processLine H late) ((l ++ ['\n']) :: rest)
        = ⟨(runConn (processLine H late) rest).buffer,
           (dumpsValD (decodeErrorResponse e) ++ ['\n'])
             :: (runConn (processLine H late) rest).out,
           (runConn (processLine H late) rest).aborted⟩ := by
  have hp := processLine_decode_error H late (l := l) hblank hbad
  exact ⟨rfl, hp, runConn_cons_reply (processLine H late) rest hnl hp⟩

/-- Witness for C6: `not json` gets the decode failure and the following
ping request on the same connection is still answered. -/
theorem malformed_line_not_poisoning_witness :
    decodeErrorResponse "Expecting value"
      = .obj [("ok", .bool false),
              ("error", .str ("JSON non valido: " ++ "Expecting value"))]
    ∧ processLine pongSem false "not json".data
        = .reply (dumpsValD (decodeErrorResponse "Expecting value"))
    ∧ runConn (processLine pongSem false) [("not json".data ++ ['\n']), pingLine ++ ['\n']]
        = ⟨(runConn (processLine pongSem false) [pingLine ++ ['\n']]).buffer,
           (dumpsValD (decodeErrorResponse "Expecting value") ++ ['\n'])
             :: (runConn (processLine pongSem false) [pingLine ++ ['\n']]).out,
           (runConn (processLine pongSem false) [pingLine ++ ['\n']]).aborted⟩ :=
  malformed_line_not_poisoning pongSem false "not json".data "Expecting value"
    [pingLine ++ ['\n']] (by decide) (by decide) rfl

/-- C7: for a registered command, a handler's normal return is wrapped as
`ok:true` with the value under `result`; a raising handler is reported as
`ok:false` with `error` carrying the exception description and
`traceback` carrying the diagnostic trace; and in both cases
`_handle_command` returns normally — the exception never propagates to
its caller. -/
theorem handler_outcome_wrapped (H : HandlerSem)
    (kvs : List (String × PyVal)) (s : String) (p : PyVal)
    (hreg : handlerNames.contains s = true)
    (hcmd : pyGet kvs "command" (.str "") = .str s)
    (hp : pyGet kvs "params" (.obj []) = p) :
    (∀ v, H s p = .ok v →
        handleCommand H (.obj kvs) = .ok (.obj [("ok", .bool true), ("result", v)]))
    ∧ (∀ m tb, H s p = .exn m tb →
        handleCommand H (.obj kvs)
          = .ok (.obj [("ok", .bool false), ("error", .str m), ("traceback", .str tb)]))
    ∧ ∃ r, handleCommand H (.obj kvs) = .ok r := by
  refine ⟨?_, ?_, ?_⟩
  · intro v hv
    simp only [handleCommand, hcmd, hp, hreg, if_true, hv]
  · intro m tb hv
    simp only [handleCommand, hcmd, hp, hreg, if_true, hv]
  · cases hv : H s p with
    | ok v =>
      exact ⟨.obj [("ok", .bool true), ("result", v)],
        by simp only [handleCommand, hcmd, hp, hreg, if_true, hv]⟩
    | exn m tb =>
      exact ⟨.obj [("ok", .bool false), ("error", .str m), ("traceback", .str tb)],
        by simp only [handleCommand, hcmd, hp, hreg, if_true, hv]⟩

/-- Witness for C7: a raising `delete_object` handler is reported with
message and traceback, and a normal ping return is wrapped as success. -/
theorem handler_outcome_wrapped_witness :
    handleCommand raiseSem
        (.obj [("command", .str "delete_object"), ("params", .obj [("name", .str "Cube")])])
      = .ok (.obj [("ok", .bool false),
                   ("error", .str "Oggetto \x27Cube\x27 non trovato."),
                   ("traceback", .str "Traceback (most recent call last)")]) :=
  (handler_outcome_wrapped raiseSem
      [("command", .str "delete_object"), ("params", .obj [("name", .str "Cube")])]
      "delete_object" (.obj [("name", .str "Cube")])
      (by decide) rfl rfl).2.1
    "Oggetto \x27Cube\x27 non trovato." "Traceback (most recent call last)" rfl

/-- C8: every response that serializes — success or failure, with
arbitrary string contents, including raw newlines — yields a wire frame
(payload plus appended delimiter, line 686) containing exactly one
delimiter byte, located at the end: the payload encoding escapes every
newline. -/
theorem encoded_frame_single_delimiter (v : PyVal) (s : List Char)
    (h : dumpsVal v = some s) :
    '\n' ∉ s
    ∧ (s ++ ['\n']).count '\n' = 1
    ∧ (s ++ ['\n']).getLast? = some '\n' := by
  have hnl := dumpsVal_no_nl v s h
  refine ⟨hnl, ?_, ?_⟩
  · rw [List.count_append, List.count_eq_zero.mpr hnl]
    rfl
  · rw [List.getLast?_concat]

/-- Witness for C8: a success response whose result string contains a raw
newline still produces a frame with a single trailing delimiter. -/
theorem encoded_frame_single_delimiter_witness :
    '\n' ∉ dumpsValD sampleResponse
    ∧ (dumpsValD sampleResponse ++ ['\n']).count '\n' = 1
    ∧ (dumpsValD sampleResponse ++ ['\n']).getLast? = some '\n' :=
  encoded_frame_single_delimiter sampleResponse (dumpsValD sampleResponse) rfl

/-- C9: stopping the server is idempotent — `execute` on a stopped server
reports a warning and returns `CANCELLED` leaving the state unchanged
(the operator body contains no raising operation, so no error is raised),
and a second stop right after a first one likewise leaves the
once-stopped state unchanged. -/
theorem stop_server_idempotent (s : AddonState) :
    stopServerExec { s with running := false }
      = ({ s with running := false }, "WARNING", .cancelled)
    ∧ stopServerExec (stopServerExec s).1
      = ((stopServerExec s).1, "WARNING", .cancelled) := by
  constructor
  · simp [stopServerExec]
  · cases hr : s.running <;> simp [stopServerExec, hr]

/-- C10: starting the server while it is already running reports a
warning and returns `CANCELLED` with the state — running flag, stored
server thread, and the count of accept-loop threads ever spawned —
completely unchanged, so no second accept loop is ever created. -/
theorem start_server_noop_when_running (t : Option Nat) (n : Nat) :
    startServerExec ⟨true, t, n⟩ = (⟨true, t, n⟩, "WARNING", .cancelled) := by
  simp [startServerExec]

end BlenderMCP
